import Mathlib

/-!
Verification of the `generators` package of edward: the directory-tree
builder with gitignore-style exclusion, the generator walk, and the
aggregation of discovered services, groups and imports.

Modelling conventions:
* Go `error` values are modelled by `Err := String` (the message); the
  `errors.WithStack` wrapper only annotates a stack trace and preserves the
  error value, so it is modelled by the identity `withStack`.
* A compiled ignore ruleset (`*ignore.GitIgnore`) is an opaque matcher,
  modelled as a predicate `Ruleset := String → Bool`; `MatchesPath` applies it.
  A nil `*ignore.GitIgnore` is `Option.none`.
* The filesystem seen by `NewDirectory` (the result of `os.Stat` on the
  ignore file, of compiling it, and of `ioutil.ReadDir`) is modelled as the
  inductive `FSNode`, finite like any real directory tree.
* A generator as seen by the walk is its `VisitDir` behaviour,
  `String → Bool × Option VisitErr`; during one walk a directory path is
  offered to a generator at most once, so a per-path response function is
  fully general.  Generators in a running collection are tagged with their
  index in the configured list so that the walk can be instrumented with a
  trace of `(generator index, path)` visit events; the index plays no role
  in the control flow, which mirrors the Go code exactly.
* `filepath.SkipDir` is `VisitErr.skipDir`, any other error `VisitErr.fail`.
-/

/-- Go `error` values, by message. -/
abbrev Err := String

/-- `errors.WithStack` decorates an error with a stack trace and preserves
the error value; modelled as the identity. -/
def withStack (e : Err) : Err := e

/-- A compiled ignore ruleset (`*ignore.GitIgnore`): an opaque path matcher. -/
def Ruleset := String → Bool

/-- `(*ignore.GitIgnore).MatchesPath`. -/
def Ruleset.MatchesPath (r : Ruleset) (path : String) : Bool := r path

/-- The Go condition `parent != nil && parent.Ignores() != nil &&
parent.Ignores().MatchesPath(path)`, where the `Option` is the resolved
ruleset of the parent (or `none` when there is no parent or no ruleset
anywhere on its chain). -/
def matchesOpt (ig : Option Ruleset) (path : String) : Bool :=
  match ig with
  | some r => r.MatchesPath path
  | none => false

/-- `filepath.Join path name`, kept unnormalized: the claims do not depend
on path normalization. -/
def joinPath (path name : String) : String := path ++ "/" ++ name

/-- What the filesystem holds at `dir/.edwardignore`: the file may be
absent, stat may fail with a non-not-exist error, the file may fail to
compile (invalid syntax), or it compiles to a ruleset. -/
inductive IgnoreStatus : Type where
  | absent
  | statFailure (e : Err)
  | invalid (e : Err)
  | compiled (r : Ruleset)

mutual
/-- One filesystem directory as consumed by `NewDirectory`: the status of
its `.edwardignore` file and the outcome of `ioutil.ReadDir` on it. -/
inductive FSNode : Type where
  | mk (ignoreFile : IgnoreStatus) (listing : FSListing)

/-- The result of `ioutil.ReadDir`: an I/O error, or the entries in
listing order. -/
inductive FSListing : Type where
  | ioFailure (e : Err)
  | ok (entries : FSEntries)

/-- Directory entries in listing order; each is a plain file or a
subdirectory (`file.IsDir()`). -/
inductive FSEntries : Type where
  | nil
  | file (name : String) (rest : FSEntries)
  | dir (name : String) (sub : FSNode) (rest : FSEntries)
end

mutual
/-- The `directory` struct: path, own (possibly nil) ignore ruleset and the
ordered child slots.  The `Parent` back-pointer is not stored; the walk
never reads it, and ignore resolution is modelled by `DirChain` below. -/
inductive Dir : Type where
  | mk (Path : String) (ignores : Option Ruleset) (children : DirList)

/-- The `children []*directory` slice; a slot may hold a nil pointer. -/
inductive DirList : Type where
  | nil
  | cons (child : ODir) (rest : DirList)

/-- A `*directory` value: nil (the Absent placeholder) or a node. -/
inductive ODir : Type where
  | absent
  | present (d : Dir)
end

/-- The child slots as a plain list, for stating properties. -/
def DirList.toList : DirList → List ODir
  | .nil => []
  | .cons c rest => c :: DirList.toList rest

/-- `loadIgnores(path, currentIgnores)`: stat the ignore file; if it does
not exist return `currentIgnores` unchanged; any other stat failure and any
compile failure is returned as an error (the Go function returns a pair
`(ignores, err)` and every caller checks `err` first, so `Except` is
faithful). -/
def loadIgnores (ignoreFile : IgnoreStatus) (currentIgnores : Option Ruleset) :
    Except Err (Option Ruleset) :=
  match ignoreFile with
  | .absent => .ok currentIgnores
  | .statFailure e => .error (withStack e)
  | .invalid e => .error (withStack e)
  | .compiled r => .ok (some r)

/-- `d.Ignores()` as seen by the children being built: the node's own
ruleset when present, else the parent chain's resolved ruleset. -/
def resolveIgnores (own inherited : Option Ruleset) : Option Ruleset :=
  match own with
  | some r => some r
  | none => inherited

mutual
/-- `NewDirectory(path, parent)`.  `parentIgnores` is `parent.Ignores()`
(`none` when `parent == nil` or no ancestor has a ruleset).  If the parent
ruleset matches the path, the Absent placeholder is returned with no error
and the filesystem below the path is never consulted; otherwise the own
ruleset is loaded, the directory is listed, and each subdirectory entry is
built recursively (child slots may come back Absent), any failure
propagating. -/
def NewDirectory (path : String) (parentIgnores : Option Ruleset) :
    FSNode → Except Err ODir
  | .mk ignoreFile listing =>
    if matchesOpt parentIgnores path then .ok .absent
    else
      match loadIgnores ignoreFile none with
      | .error e => .error e
      | .ok ignores =>
        match listing with
        | .ioFailure e => .error (withStack e)
        | .ok entries =>
          match buildChildren path (resolveIgnores ignores parentIgnores) entries with
          | .error e => .error e
          | .ok children => .ok (.present (.mk path ignores children))

/-- The loop over `files` in `NewDirectory`: non-directories are skipped,
each subdirectory is built with the current node as parent (whose resolved
ruleset is `dirIgnores`) and appended, errors propagate. -/
def buildChildren (path : String) (dirIgnores : Option Ruleset) :
    FSEntries → Except Err DirList
  | .nil => .ok .nil
  | .file _ rest => buildChildren path dirIgnores rest
  | .dir name sub rest =>
    match NewDirectory (joinPath path name) dirIgnores sub with
    | .error e => .error (withStack e)
    | .ok child =>
      match buildChildren path dirIgnores rest with
      | .error e => .error e
      | .ok restChildren => .ok (.cons child restChildren)
end

/-- The parent chain of a `directory` for ignore resolution: own ruleset
and optional parent. -/
inductive DirChain : Type where
  | mk (ignores : Option Ruleset) (Parent : Option DirChain)

/-- `(*directory).Ignores()`: the own ruleset when non-nil, else the
parent's `Ignores()`, else nil. -/
def DirChain.Ignores : DirChain → Option Ruleset
  | .mk ignores Parent =>
    match ignores with
    | some r => some r
    | none =>
      match Parent with
      | some p => DirChain.Ignores p
      | none => none

/-- The own rulesets along the chain, node first, root last. -/
def DirChain.toRulesets : DirChain → List (Option Ruleset)
  | .mk ignores Parent =>
    ignores ::
      (match Parent with
       | some p => DirChain.toRulesets p
       | none => [])

/-- The error component of a `VisitDir` return: `filepath.SkipDir` or a
genuine failure. -/
inductive VisitErr : Type where
  | skipDir
  | fail (e : Err)
deriving DecidableEq

/-- A record discovered by a service generator: a name and an opaque
payload standing for all the other `services.ServiceConfig` fields. -/
structure ServiceConfig where
  Name : String
  payload : Nat
deriving DecidableEq

/-- A record discovered by a group generator: a name and an opaque payload
standing for all the other `services.ServiceGroupConfig` fields. -/
structure ServiceGroupConfig where
  Name : String
  payload : Nat
deriving DecidableEq

/-- A generator: its `Name()`, its `VisitDir` behaviour, its recorded
`Err()` as read at aggregation time, and the three optional capability
extensions (`some` means the type assertion succeeds, carrying what the
capability method returns). -/
structure Gen where
  name : String
  visit : String → Bool × Option VisitErr
  err : Option Err
  services : Option (List ServiceConfig)
  groups : Option (List ServiceGroupConfig)
  imports : Option (List String)

/-- A generator tagged with its position in the configured list; the tag
identifies the instance in traces and plays no role in control flow. -/
abbrev IGen := Nat × Gen

/-- `e == some skipDir`. -/
def isSkip (e : Option VisitErr) : Bool := e == some .skipDir

/-- `e` is a genuine failure (non-nil and not `filepath.SkipDir`). -/
def isFail (e : Option VisitErr) : Bool :=
  match e with
  | some (.fail _) => true
  | _ => false

/-- The generator neither claims the directory nor fails there, so the
visit loop continues past it. -/
def passes (path : String) (g : Gen) : Bool :=
  !(g.visit path).1 && !(isFail (g.visit path).2)

/-- The generator loop of `directory.Generate` at one directory: visit each
generator in order; a genuine failure returns it at once; a generator not
returning `SkipDir` is appended to `childGenerators`; `found` breaks the
loop.  Returns the visit events `(tag, path)` in order, and either the
fatal error or the computed `childGenerators`. -/
def visitRow (path : String) : List IGen → List (Nat × String) × Except Err (List IGen)
  | [] => ([], .ok [])
  | generator :: rest =>
    let r := generator.2.visit path
    match r.2 with
    | some (.fail e) => ([(generator.1, path)], .error (withStack e))
    | some .skipDir =>
      if r.1 then
        ([(generator.1, path)], .ok [])
      else
        let t := visitRow path rest
        ((generator.1, path) :: t.1, t.2)
    | none =>
      if r.1 then
        ([(generator.1, path)], .ok [generator])
      else
        let t := visitRow path rest
        ((generator.1, path) :: t.1, Except.map (fun l => generator :: l) t.2)

mutual
/-- `(*directory).Generate(generators)`: nil receivers and empty generator
lists are no-ops; otherwise run the generator loop at this directory and
recurse into every child slot with the computed `childGenerators`,
aborting on the first error.  Instrumented with the trace of visit
events. -/
def ODir.Generate : ODir → List IGen → List (Nat × String) × Option Err
  | .absent, _ => ([], none)
  | .present (.mk path _ children), generators =>
    match generators with
    | [] => ([], none)
    | _ :: _ =>
      match visitRow path generators with
      | (tr, .error e) => (tr, some e)
      | (tr, .ok childGenerators) =>
        let rest := childrenGenerate children childGenerators
        (tr ++ rest.1, rest.2)

/-- The loop over `d.children` in `directory.Generate`: walk each child in
order with the same generator list, stopping at the first error. -/
def childrenGenerate : DirList → List IGen → List (Nat × String) × Option Err
  | .nil, _ => ([], none)
  | .cons c rest, generators =>
    match ODir.Generate c generators with
    | (tr, some e) => (tr, some (withStack e))
    | (tr, none) =>
      let t := childrenGenerate rest generators
      (tr ++ t.1, t.2)
end

/-- The outcome of `os.Stat` on the collection's root path: an error, or
an info whose `IsDir()` is as given. -/
inductive StatResult : Type where
  | statFailure (e : Err)
  | ok (isDir : Bool)

/-- Lifecycle events observed on the generators during
`GeneratorCollection.Generate`, tagged by generator position. -/
inductive Event : Type where
  | startWalk (i : Nat)
  | visitDir (i : Nat) (path : String)
  | stopWalk (i : Nat)
deriving DecidableEq

/-- The `GeneratorCollection` struct. -/
structure GeneratorCollection where
  Generators : List Gen
  Path : String
  Targets : List String

/-- `(*GeneratorCollection).Generate()`: fail unless the root path stats as
an existing directory; build the tree, failing on error; only then
`StartWalk` every generator, walk the tree, and (via `defer`) `StopWalk`
every generator; the walk's error is returned wrapped.  The first
component is the full trace of generator lifecycle events. -/
def GeneratorCollection.Generate (g : GeneratorCollection)
    (stat : StatResult) (fs : FSNode) : List Event × Option Err :=
  match stat with
  | .statFailure e => ([], some (withStack e))
  | .ok false => ([], some (g.Path ++ " is not a directory"))
  | .ok true =>
    match NewDirectory g.Path none fs with
    | .error e => ([], some (withStack e))
    | .ok dir =>
      let igens := g.Generators.enum
      let starts := igens.map (fun ig => Event.startWalk ig.1)
      let walk := ODir.Generate dir igens
      let stops := igens.map (fun ig => Event.stopWalk ig.1)
      (starts ++ walk.1.map (fun v => Event.visitDir v.1 v.2) ++ stops,
       walk.2.map withStack)

/-- The per-run state of `generatorBase` for one generator. -/
structure GenState where
  err : Option Err
  basePath : String
deriving DecidableEq

/-- How the events of a run act on the state of the generator tagged `i`:
`StartWalk` resets the error and records the base path; the walker never
feeds a `VisitDir` return value into `SetErr`, and `StopWalk` does not
touch the state. -/
def applyEvent (runPath : String) (i : Nat) (s : GenState) : Event → GenState
  | .startWalk j => if j = i then { err := none, basePath := runPath } else s
  | .visitDir _ _ => s
  | .stopWalk _ => s

/-- Fold of `applyEvent` over a trace. -/
def applyEvents (runPath : String) (i : Nat) (s : GenState) (evs : List Event) : GenState :=
  evs.foldl (applyEvent runPath i) s

/-- The accumulation loop of `Services()`: for each generator in configured
order whose `ServiceGenerator` assertion succeeds and whose `Err()` is nil,
append its services.  (The Go code also fills a local name-to-generator
map that it never reads again; the map has no observable effect and is not
modelled.) -/
def collectServices : List Gen → List ServiceConfig
  | [] => []
  | generator :: rest =>
    match generator.services, generator.err with
    | some found, none => found ++ collectServices rest
    | _, _ => collectServices rest

/-- The accumulation loop of `Groups()`, symmetric to `collectServices`. -/
def collectGroups : List Gen → List ServiceGroupConfig
  | [] => []
  | generator :: rest =>
    match generator.groups, generator.err with
    | some found, none => found ++ collectGroups rest
    | _, _ => collectGroups rest

/-- The accumulation loop of `Imports()`. -/
def collectImports : List Gen → List String
  | [] => []
  | generator :: rest =>
    match generator.imports, generator.err with
    | some found, none => found ++ collectImports rest
    | _, _ => collectImports rest

/-- `sort.Sort(ByName(...))`: an in-place comparison sort whose `Less`
compares names with `<`.  Go's sort is unstable, so the source pins the
result only up to a permutation that is pairwise sorted by name; it is
modelled by insertion sort, one such sort. -/
def sortByName (l : List ServiceConfig) : List ServiceConfig :=
  List.insertionSort (fun a b => a.Name ≤ b.Name) l

/-- `sort.Sort(ByGroupName(...))`, as `sortByName`. -/
def sortByGroupName (l : List ServiceGroupConfig) : List ServiceGroupConfig :=
  List.insertionSort (fun a b => a.Name ≤ b.Name) l

/-- `(*GeneratorCollection).Services()`. -/
def GeneratorCollection.Services (g : GeneratorCollection) : List ServiceConfig :=
  let outServices := collectServices g.Generators
  if g.Targets = [] then
    sortByName outServices
  else
    let filteredServices := outServices.filter (fun s => g.Targets.contains s.Name)
    sortByName filteredServices

/-- `(*GeneratorCollection).Groups()`. -/
def GeneratorCollection.Groups (g : GeneratorCollection) : List ServiceGroupConfig :=
  let outGroups := collectGroups g.Generators
  if g.Targets = [] then
    sortByGroupName outGroups
  else
    let filteredGroups := outGroups.filter (fun s => g.Targets.contains s.Name)
    sortByGroupName filteredGroups

/-- `(*GeneratorCollection).Imports()`: no filtering, no sorting. -/
def GeneratorCollection.Imports (g : GeneratorCollection) : List String :=
  collectImports g.Generators

/-! ### Helper lemmas about the generator loop -/

theorem passes_spec {path : String} {g : Gen} (h : passes path g = true) :
    (g.visit path).1 = false ∧ isFail (g.visit path).2 = false := by
  simp only [passes, Bool.and_eq_true, Bool.not_eq_true'] at h
  exact h

theorem visitRow_fail {path : String} {g : IGen} {rest : List IGen} {e : Err}
    (h : (g.2.visit path).2 = some (.fail e)) :
    visitRow path (g :: rest) = ([(g.1, path)], .error e) := by
  simp [visitRow, h, withStack]

theorem visitRow_found_none {path : String} {g : IGen} {rest : List IGen}
    (h1 : (g.2.visit path).1 = true) (h2 : (g.2.visit path).2 = none) :
    visitRow path (g :: rest) = ([(g.1, path)], .ok [g]) := by
  simp [visitRow, h1, h2]

theorem visitRow_found_skip {path : String} {g : IGen} {rest : List IGen}
    (h1 : (g.2.visit path).1 = true) (h2 : (g.2.visit path).2 = some .skipDir) :
    visitRow path (g :: rest) = ([(g.1, path)], .ok []) := by
  simp [visitRow, h1, h2]

theorem visitRow_cons_passes {path : String} {g : IGen} {rest : List IGen}
    (h : passes path g.2 = true) :
    visitRow path (g :: rest) =
      ((g.1, path) :: (visitRow path rest).1,
       if isSkip (g.2.visit path).2 then (visitRow path rest).2
       else Except.map (fun l => g :: l) (visitRow path rest).2) := by
  obtain ⟨h1, h2⟩ := passes_spec h
  cases he : (g.2.visit path).2 with
  | none => simp [visitRow, h1, he, isSkip]
  | some v =>
    cases v with
    | skipDir => simp [visitRow, h1, he, isSkip]
    | fail e => rw [he] at h2; simp [isFail] at h2

theorem visitRow_append_passes {path : String} {L2 : List IGen} :
    ∀ {L1 : List IGen}, (∀ g ∈ L1, passes path g.2 = true) →
    visitRow path (L1 ++ L2) =
      (L1.map (fun g => (g.1, path)) ++ (visitRow path L2).1,
       match (visitRow path L2).2 with
       | .error e => .error e
       | .ok l => .ok (L1.filter (fun g => !isSkip (g.2.visit path).2) ++ l))
  | [], _ => by
    cases hr : (visitRow path L2).2 <;> simp [hr, Prod.ext_iff]
  | g :: L1, h => by
    have hg : passes path g.2 = true := h g (List.mem_cons_self g L1)
    have hrest : ∀ x ∈ L1, passes path x.2 = true :=
      fun x hx => h x (List.mem_cons_of_mem g hx)
    rw [List.cons_append, visitRow_cons_passes hg, visitRow_append_passes hrest]
    cases hr : (visitRow path L2).2 with
    | error e =>
      cases hs : isSkip (g.2.visit path).2 <;> simp [hr, hs, Except.map]
    | ok l =>
      cases hs : isSkip (g.2.visit path).2 <;>
        simp [hr, hs, Except.map, List.filter_cons]

theorem visitRow_ok_sublist {path : String} :
    ∀ {L Lc : List IGen}, (visitRow path L).2 = .ok Lc → Lc.Sublist L
  | [], Lc, h => by
    simp [visitRow] at h
    subst h
    simp
  | g :: rest, Lc, h => by
    revert h
    cases he : (g.2.visit path).2 with
    | none =>
      cases hf : (g.2.visit path).1 with
      | true =>
        intro h
        rw [visitRow_found_none hf he] at h
        simp at h
        subst h
        simp
      | false =>
        intro h
        simp only [visitRow, he, hf, Bool.false_eq_true, if_false] at h
        revert h
        cases hr : (visitRow path rest).2 with
        | error e => intro h; simp [Except.map, hr] at h
        | ok l =>
          intro h
          simp [Except.map, hr] at h
          subst h
          exact (visitRow_ok_sublist hr).cons₂ g
    | some v =>
      cases v with
      | skipDir =>
        cases hf : (g.2.visit path).1 with
        | true =>
          intro h
          rw [visitRow_found_skip hf he] at h
          simp at h
          subst h
          simp
        | false =>
          intro h
          simp only [visitRow, he, hf, Bool.false_eq_true, if_false] at h
          exact (visitRow_ok_sublist h).cons g
      | fail e =>
        intro h
        rw [visitRow_fail he] at h
        simp at h

theorem visitRow_ok_no_skip {path : String} :
    ∀ {L Lc : List IGen}, (visitRow path L).2 = .ok Lc →
      ∀ g ∈ Lc, isSkip (g.2.visit path).2 = false
  | [], Lc, h => by
    simp [visitRow] at h
    subst h
    simp
  | g :: rest, Lc, h => by
    revert h
    cases he : (g.2.visit path).2 with
    | none =>
      cases hf : (g.2.visit path).1 with
      | true =>
        intro h
        rw [visitRow_found_none hf he] at h
        simp at h
        subst h
        simp [isSkip, he]
      | false =>
        intro h
        simp only [visitRow, he, hf, Bool.false_eq_true, if_false] at h
        revert h
        cases hr : (visitRow path rest).2 with
        | error e => intro h; simp [Except.map, hr] at h
        | ok l =>
          intro h
          simp [Except.map, hr] at h
          subst h
          intro x hx
          rcases List.mem_cons.1 hx with rfl | hx
          · simp [isSkip, he]
          · exact visitRow_ok_no_skip hr x hx
    | some v =>
      cases v with
      | skipDir =>
        cases hf : (g.2.visit path).1 with
        | true =>
          intro h
          rw [visitRow_found_skip hf he] at h
          simp at h
          subst h
          simp
        | false =>
          intro h
          simp only [visitRow, he, hf, Bool.false_eq_true, if_false] at h
          exact visitRow_ok_no_skip h
      | fail e =>
        intro h
        rw [visitRow_fail he] at h
        simp at h

theorem visitRow_trace {path : String} :
    ∀ {L : List IGen}, ∀ ev ∈ (visitRow path L).1, ev.2 = path ∧ ev.1 ∈ L.map Prod.fst
  | [], ev, hev => by simp [visitRow] at hev
  | g :: rest, ev, hev => by
    revert hev
    cases he : (g.2.visit path).2 with
    | none =>
      cases hf : (g.2.visit path).1 with
      | true =>
        intro hev
        rw [visitRow_found_none hf he] at hev
        simp at hev
        simp [hev]
      | false =>
        intro hev
        simp only [visitRow, he, hf, Bool.false_eq_true, if_false] at hev
        rcases List.mem_cons.1 hev with rfl | hev
        · simp
        · obtain ⟨h1, h2⟩ := visitRow_trace ev hev
          exact ⟨h1, by simp [h2]⟩
    | some v =>
      cases v with
      | skipDir =>
        cases hf : (g.2.visit path).1 with
        | true =>
          intro hev
          rw [visitRow_found_skip hf he] at hev
          simp at hev
          simp [hev]
        | false =>
          intro hev
          simp only [visitRow, he, hf, Bool.false_eq_true, if_false] at hev
          rcases List.mem_cons.1 hev with rfl | hev
          · simp
          · obtain ⟨h1, h2⟩ := visitRow_trace ev hev
            exact ⟨h1, by simp [h2]⟩
      | fail e =>
        intro hev
        rw [visitRow_fail he] at hev
        simp at hev
        simp [hev]

/-! ### Helper lemmas about the tree walk -/

theorem generate_nilGens : ∀ d : ODir, ODir.Generate d [] = ([], none)
  | .absent => rfl
  | .present (.mk _ _ _) => rfl

theorem childrenGenerate_nilGens : ∀ cs : DirList, childrenGenerate cs [] = ([], none)
  | .nil => rfl
  | .cons c rest => by
    simp [childrenGenerate, generate_nilGens c, childrenGenerate_nilGens rest]

mutual
theorem generate_trace_tags : ∀ (d : ODir) (L : List IGen),
    ∀ ev ∈ (ODir.Generate d L).1, ev.1 ∈ L.map Prod.fst
  | .absent, L => by simp [ODir.Generate]
  | .present (.mk path ig children), L => by
    cases L with
    | nil => simp [ODir.Generate]
    | cons g rest =>
      intro ev hev
      rw [ODir.Generate] at hev
      revert hev
      rcases hr : visitRow path (g :: rest) with ⟨tr, res⟩
      cases res with
      | error e =>
        intro hev
        simp at hev
        have := visitRow_trace (L := g :: rest) ev (by rw [hr]; exact hev)
        exact this.2
      | ok Lc =>
        intro hev
        simp at hev
        rcases hev with hev | hev
        · exact (visitRow_trace (L := g :: rest) ev (by rw [hr]; exact hev)).2
        · have htag := childrenGenerate_trace_tags children Lc ev hev
          have hsub : Lc.Sublist (g :: rest) := visitRow_ok_sublist (by rw [hr])
          exact (hsub.map Prod.fst).subset htag

theorem childrenGenerate_trace_tags : ∀ (cs : DirList) (L : List IGen),
    ∀ ev ∈ (childrenGenerate cs L).1, ev.1 ∈ L.map Prod.fst
  | .nil, L => by simp [childrenGenerate]
  | .cons c rest, L => by
    intro ev hev
    rw [childrenGenerate] at hev
    revert hev
    rcases hc : ODir.Generate c L with ⟨tr, res⟩
    cases res with
    | some e =>
      intro hev
      simp at hev
      exact generate_trace_tags c L ev (by rw [hc]; exact hev)
    | none =>
      intro hev
      simp at hev
      rcases hev with hev | hev
      · exact generate_trace_tags c L ev (by rw [hc]; exact hev)
      · exact childrenGenerate_trace_tags rest L ev hev
end

theorem childrenGenerate_join : ∀ (cs : DirList) (L : List IGen),
    (∀ c ∈ cs.toList, (ODir.Generate c L).2 = none) →
    childrenGenerate cs L = ((cs.toList.map (fun c => (ODir.Generate c L).1)).flatten, none)
  | .nil, L, _ => by simp [childrenGenerate, DirList.toList]
  | .cons c rest, L, h => by
    have hc : (ODir.Generate c L).2 = none := h c (by simp [DirList.toList])
    have hrest : ∀ x ∈ rest.toList, (ODir.Generate x L).2 = none :=
      fun x hx => h x (by simp [DirList.toList, hx])
    rw [childrenGenerate]
    rcases hg : ODir.Generate c L with ⟨tr, res⟩
    rw [hg] at hc
    simp at hc
    subst hc
    simp [childrenGenerate_join rest L hrest, DirList.toList, hg]

/-! ### Generic list helpers -/

theorem getElem_not_mem_take {α : Type} {l : List α} (hnd : l.Nodup)
    {j k : Nat} (hj : j < l.length) (hk : k ≤ j) :
    l.get ⟨j, hj⟩ ∉ l.take k := by
  intro hmem
  obtain ⟨m, hm, hml⟩ := List.getElem_of_mem hmem
  rw [List.getElem_take] at hml
  have hmk : m < k := by
    have := hm
    rw [List.length_take] at this
    omega
  have hmj : m = j := by
    have hml2 : l[m] = l[j] := by simpa using hml
    exact (List.Nodup.getElem_inj_iff hnd).1 hml2
  omega

theorem tags_inj {L : List IGen} (hnd : (L.map Prod.fst).Nodup) :
    ∀ a ∈ L, ∀ b ∈ L, a.1 = b.1 → a = b :=
  List.inj_on_of_nodup_map hnd

/-! ### Helper lemmas about events and the aggregation loops -/

theorem applyEvents_of_visits (runPath : String) (i : Nat) :
    ∀ (evs : List Event), (∀ ev ∈ evs, ∃ j q, ev = Event.visitDir j q) →
    ∀ s : GenState, applyEvents runPath i s evs = s
  | [], _, s => rfl
  | ev :: evs, h, s => by
    obtain ⟨j, q, rfl⟩ := h ev (List.mem_cons_self ev evs)
    have hrest : ∀ x ∈ evs, ∃ j q, x = Event.visitDir j q :=
      fun x hx => h x (List.mem_cons_of_mem _ hx)
    simpa [applyEvents, applyEvent] using applyEvents_of_visits runPath i evs hrest s

theorem collectServices_eq_flatten : ∀ gens : List Gen,
    collectServices gens = (gens.map (fun generator =>
      match generator.services, generator.err with
      | some found, none => found
      | _, _ => [])).flatten
  | [] => rfl
  | generator :: rest => by
    rcases hs : generator.services with _ | found <;>
      rcases he : generator.err with _ | e <;>
        simp [collectServices, hs, he, collectServices_eq_flatten rest]

theorem collectGroups_eq_flatten : ∀ gens : List Gen,
    collectGroups gens = (gens.map (fun generator =>
      match generator.groups, generator.err with
      | some found, none => found
      | _, _ => [])).flatten
  | [] => rfl
  | generator :: rest => by
    rcases hs : generator.groups with _ | found <;>
      rcases he : generator.err with _ | e <;>
        simp [collectGroups, hs, he, collectGroups_eq_flatten rest]

theorem collectImports_eq_flatten : ∀ gens : List Gen,
    collectImports gens = (gens.map (fun generator =>
      match generator.imports, generator.err with
      | some found, none => found
      | _, _ => [])).flatten
  | [] => rfl
  | generator :: rest => by
    rcases hs : generator.imports with _ | found <;>
      rcases he : generator.err with _ | e <;>
        simp [collectImports, hs, he, collectImports_eq_flatten rest]

instance : IsTotal ServiceConfig (fun a b => a.Name ≤ b.Name) :=
  ⟨fun a b => le_total a.Name b.Name⟩

instance : IsTrans ServiceConfig (fun a b => a.Name ≤ b.Name) :=
  ⟨fun _ _ _ h1 h2 => le_trans h1 h2⟩

instance : IsTotal ServiceGroupConfig (fun a b => a.Name ≤ b.Name) :=
  ⟨fun a b => le_total a.Name b.Name⟩

instance : IsTrans ServiceGroupConfig (fun a b => a.Name ≤ b.Name) :=
  ⟨fun _ _ _ h1 h2 => le_trans h1 h2⟩

/-- `Ignores` as a scan of the chain: the first ancestor (node first) with
an own ruleset wins. -/
theorem ignores_eq_findSome : ∀ d : DirChain, d.Ignores = d.toRulesets.findSome? id
  | .mk (some r) parent => by
    rw [DirChain.Ignores, DirChain.toRulesets.eq_def]
    simp [List.findSome?]
  | .mk none none => by
    rw [DirChain.Ignores, DirChain.toRulesets.eq_def]
    simp [List.findSome?]
  | .mk none (some p) => by
    rw [DirChain.Ignores, DirChain.toRulesets.eq_def, ignores_eq_findSome p]
    simp [List.findSome?]

theorem ignores_none_of_all_none : ∀ d : DirChain,
    (∀ o ∈ d.toRulesets, o = none) → d.Ignores = none
  | .mk ig parent, h => by
    have hig : ig = none := h ig (by rw [DirChain.toRulesets.eq_def]; simp)
    subst hig
    cases parent with
    | some p =>
      have hp : ∀ o ∈ p.toRulesets, o = none :=
        fun o ho => h o (by rw [DirChain.toRulesets.eq_def]; simp [ho])
      simp [DirChain.Ignores, ignores_none_of_all_none p hp]
    | none => simp [DirChain.Ignores]

/-! ### Claim theorems -/

/-- Claim C8: `Ignores()` returns the node's own ruleset when it has one;
otherwise it returns the nearest ancestor's own ruleset found by following
the parent chain (formally: the first non-nil ruleset along the chain,
node first); and when no node on the chain has a ruleset it returns nil,
meaning no rules. -/
theorem claim8_ignores_chain :
    (∀ (parent : Option DirChain) (r : Ruleset),
       DirChain.Ignores (.mk (some r) parent) = some r)
    ∧ (∀ parent : DirChain,
       DirChain.Ignores (.mk none (some parent)) = parent.Ignores)
    ∧ (DirChain.Ignores (.mk none none) = none)
    ∧ (∀ d : DirChain, d.Ignores = d.toRulesets.findSome? id)
    ∧ (∀ d : DirChain, (∀ o ∈ d.toRulesets, o = none) → d.Ignores = none) := by
  refine ⟨fun parent r => rfl, fun parent => rfl, rfl, ignores_eq_findSome,
    ignores_none_of_all_none⟩

/-- A one-ruleset chain for the `claim8_ignores_chain` witness. -/
def rulesetW : Ruleset := fun _ => true

/-- Witness for `claim8_ignores_chain` at concrete chains: a node with an
own ruleset keeps it, and a chain of two ruleset-free nodes yields none. -/
theorem claim8_witness :
    DirChain.Ignores (.mk (some rulesetW) (some (.mk none none))) = some rulesetW
    ∧ DirChain.Ignores (.mk none (some (.mk none none))) = none := by
  refine ⟨claim8_ignores_chain.1 (some (.mk none none)) rulesetW, ?_⟩
  exact claim8_ignores_chain.2.2.2.2 (.mk none (some (.mk none none)))
    (by intro o ho; simpa [DirChain.toRulesets] using ho)

/-- Claim C7: `Imports()` is exactly the concatenation, in configured
generator order, of the import strings of each import-capable generator
with nil recorded `Err()`; the target allow-list is never applied (the
result does not depend on `Targets`), and no sorting happens (the
concatenation keeps configured order). -/
theorem claim7_imports (g : GeneratorCollection) :
    g.Imports = (g.Generators.map (fun generator =>
      match generator.imports, generator.err with
      | some found, none => found
      | _, _ => [])).flatten
    ∧ ∀ ts : List String,
        GeneratorCollection.Imports ⟨g.Generators, g.Path, ts⟩ = g.Imports :=
  ⟨collectImports_eq_flatten g.Generators, fun _ => rfl⟩

/-- Claim C10: walking a nil directory, and walking any directory with an
empty active generator list, is a total no-op returning success: no visit
event is produced and no error arises, and the same holds for every child
loop run with an empty list. -/
theorem claim10_noop_walks :
    (∀ L : List IGen, ODir.Generate .absent L = ([], none))
    ∧ (∀ d : ODir, ODir.Generate d [] = ([], none))
    ∧ (∀ cs : DirList, childrenGenerate cs [] = ([], none)) :=
  ⟨fun _ => rfl, generate_nilGens, childrenGenerate_nilGens⟩

/-- Claim C2: `Services()` (and symmetrically `Groups()`) returns exactly
the records of the capability-supporting generators with nil recorded
`Err()`, concatenated in configured order without de-duplication (the
working sequence below, pinned as a flat concatenation); with no target
allow-list the result is that sequence sorted by name ascending, and with
an allow-list the sequence is first filtered to allow-listed names and
then sorted the same way.  Go's `sort.Sort` is unstable, so the sorted
result is pinned as a permutation of the corresponding sequence that is
pairwise sorted by name. -/
theorem claim2_services_groups (g : GeneratorCollection) :
    (collectServices g.Generators = (g.Generators.map (fun generator =>
      match generator.services, generator.err with
      | some found, none => found
      | _, _ => [])).flatten)
    ∧ g.Services.Perm (if g.Targets = [] then collectServices g.Generators
        else (collectServices g.Generators).filter (fun s => g.Targets.contains s.Name))
    ∧ List.Sorted (fun a b : ServiceConfig => a.Name ≤ b.Name) g.Services
    ∧ (collectGroups g.Generators = (g.Generators.map (fun generator =>
      match generator.groups, generator.err with
      | some found, none => found
      | _, _ => [])).flatten)
    ∧ g.Groups.Perm (if g.Targets = [] then collectGroups g.Generators
        else (collectGroups g.Generators).filter (fun s => g.Targets.contains s.Name))
    ∧ List.Sorted (fun a b : ServiceGroupConfig => a.Name ≤ b.Name) g.Groups := by
  refine ⟨collectServices_eq_flatten g.Generators, ?_, ?_,
    collectGroups_eq_flatten g.Generators, ?_, ?_⟩ <;>
    by_cases ht : g.Targets = [] <;>
      simp only [GeneratorCollection.Services, GeneratorCollection.Groups, ht,
        if_true, if_false, sortByName, sortByGroupName] <;>
      first
        | exact List.perm_insertionSort _ _
        | exact List.sorted_insertionSort _ _

/-- Claim C4: a directory whose path is matched by the resolved ruleset of
its parent is returned as the Absent placeholder with no error, whatever
the filesystem holds below it (the subtree is never listed or built), and
the walk of an Absent slot performs no `VisitDir` call and returns no
error, for every generator list. -/
theorem claim4_ignored_subtree (path : String) (r : Ruleset)
    (parentIgnores : Option Ruleset) (hpi : parentIgnores = some r)
    (hm : r.MatchesPath path = true) :
    (∀ fs : FSNode, NewDirectory path parentIgnores fs = .ok .absent)
    ∧ (∀ L : List IGen, ODir.Generate .absent L = ([], none)) := by
  subst hpi
  refine ⟨fun fs => ?_, fun _ => rfl⟩
  cases fs with
  | mk ignoreFile listing =>
    rw [NewDirectory]
    rw [if_pos (show matchesOpt (some r) path = true by simp [matchesOpt, hm])]

/-- A ruleset matching exactly the path used in `claim4_witness`. -/
def rulesetMatchB : Ruleset := fun p => p == "r/b"

/-- A filesystem node holding a listing failure, used to show the matched
subtree is never consulted. -/
def fsBroken : FSNode := .mk (.invalid "bad ignore syntax") (.ioFailure "io failure")

/-- Witness for `claim4_ignored_subtree`: the ignored path comes back
Absent with no error even over a filesystem whose ignore file and listing
would both fail, and the Absent walk is a no-op. -/
theorem claim4_witness :
    NewDirectory "r/b" (some rulesetMatchB) fsBroken = .ok .absent
    ∧ ODir.Generate .absent [] = ([], none) := by
  have h := claim4_ignored_subtree "r/b" rulesetMatchB (some rulesetMatchB) rfl
    (by decide)
  exact ⟨h.1 fsBroken, h.2 []⟩

/-- Claim C9: when `Generate()` fails before the walk starts — stat error,
root not a directory, or tree construction failure — it returns that error
and produces no generator lifecycle event at all (no `StartWalk`, no
`VisitDir`, no `StopWalk`), so every generator's state is left exactly as
it was (the empty event trace acts as the identity on any state). -/
theorem claim9_prewalk_failures (gc : GeneratorCollection) (fs : FSNode) :
    (∀ e : Err, gc.Generate (.statFailure e) fs = ([], some (withStack e)))
    ∧ gc.Generate (.ok false) fs = ([], some (gc.Path ++ " is not a directory"))
    ∧ (∀ e : Err, NewDirectory gc.Path none fs = .error e →
        gc.Generate (.ok true) fs = ([], some (withStack e)))
    ∧ (∀ (runPath : String) (i : Nat) (s : GenState), applyEvents runPath i s [] = s) := by
  refine ⟨fun e => rfl, rfl, fun e he => ?_, fun _ _ _ => rfl⟩
  simp [GeneratorCollection.Generate, he]

/-- A generator that never claims a directory and never errs. -/
def genQuiet : Gen := ⟨"quiet", fun _ => (false, none), none, none, none, none⟩

/-- Witness for `claim9_prewalk_failures`: with a root whose listing fails,
`Generate` surfaces the listing error with an empty event trace. -/
theorem claim9_witness :
    GeneratorCollection.Generate ⟨[genQuiet], "root", []⟩ (.ok true)
      (.mk .absent (.ioFailure "io failure")) = ([], some "io failure") :=
  (claim9_prewalk_failures ⟨[genQuiet], "root", []⟩
    (.mk .absent (.ioFailure "io failure"))).2.2.1 "io failure" rfl

/-- If every generator before position `i` lets the loop continue and the
generator at `i` claims the directory (`found = true`) without failing,
then the visit loop visits exactly positions `0..i` and hands the children
the non-skipping generators among the first `i+1`. -/
theorem visitRow_stop_at (path : String) {L : List IGen} {i : Nat} (hi : i < L.length)
    (hpass : ∀ g ∈ L.take i, passes path g.2 = true)
    (hfound : ((L.get ⟨i, hi⟩).2.visit path).1 = true)
    (hnofail : isFail ((L.get ⟨i, hi⟩).2.visit path).2 = false) :
    visitRow path L =
      ((L.take (i+1)).map (fun g => (g.1, path)),
       .ok ((L.take (i+1)).filter (fun g => !isSkip (g.2.visit path).2))) := by
  have hsplit : L = L.take i ++ (L.get ⟨i, hi⟩ :: L.drop (i+1)) := by
    conv_lhs => rw [← List.take_append_drop i L]
    rw [List.drop_eq_getElem_cons hi, List.get_eq_getElem]
  have htake : L.take (i+1) = L.take i ++ [L.get ⟨i, hi⟩] := by
    rw [List.take_succ, List.getElem?_eq_getElem hi, List.get_eq_getElem]
    rfl
  have hhead : visitRow path (L.get ⟨i, hi⟩ :: L.drop (i+1)) =
      ([((L.get ⟨i, hi⟩).1, path)],
       .ok ((if isSkip ((L.get ⟨i, hi⟩).2.visit path).2 then [] else [L.get ⟨i, hi⟩]))) := by
    cases he : ((L.get ⟨i, hi⟩).2.visit path).2 with
    | none => rw [visitRow_found_none hfound he]; simp [isSkip]
    | some v =>
      cases v with
      | skipDir => rw [visitRow_found_skip hfound he]; simp [isSkip]
      | fail e => rw [he] at hnofail; simp [isFail] at hnofail
  have hmain : visitRow path L =
      ((L.take i).map (fun g => (g.1, path)) ++ [((L.get ⟨i, hi⟩).1, path)],
       .ok ((L.take i).filter (fun g => !isSkip (g.2.visit path).2) ++
         (if isSkip ((L.get ⟨i, hi⟩).2.visit path).2 then [] else [L.get ⟨i, hi⟩]))) := by
    conv_lhs => rw [hsplit]
    rw [visitRow_append_passes hpass, hhead]
  rw [hmain, htake, List.map_append, List.filter_append]
  simp only [Prod.mk.injEq, List.map_cons, List.map_nil, List.filter_cons, List.filter_nil]
  cases hs : isSkip ((L.get ⟨i, hi⟩).2.visit path).2 <;> simp [hs]

/-- Claim C3: if the generator at position `i` of the active list returns
`found = true` at directory `D` (the loop having reached it), then the
visit loop at `D` stops at `i` and the child list handed to every child of
`D` is the truncation of the active list to positions up to and including
`i` (minus skip-returners); no generator at a position greater than `i` is
ever invoked at `D` or at any descendant of `D`; and sibling subtrees are
each walked independently with the list computed at their parent, so later
generators are still invoked normally there. -/
theorem claim3_found_truncates (path : String) (ig : Option Ruleset) (cs : DirList)
    (L : List IGen) (i : Nat) (hi : i < L.length)
    (hnd : (L.map Prod.fst).Nodup)
    (hpass : ∀ g ∈ L.take i, passes path g.2 = true)
    (hfound : ((L.get ⟨i, hi⟩).2.visit path).1 = true)
    (hnofail : isFail ((L.get ⟨i, hi⟩).2.visit path).2 = false) :
    visitRow path L =
      ((L.take (i+1)).map (fun g => (g.1, path)),
       .ok ((L.take (i+1)).filter (fun g => !isSkip (g.2.visit path).2)))
    ∧ (∀ j (hj : j < L.length), i < j → ∀ q : String,
        ((L.get ⟨j, hj⟩).1, q) ∉ (ODir.Generate (.present (.mk path ig cs)) L).1)
    ∧ (∀ (cs2 : DirList) (L2 : List IGen),
        (∀ c ∈ cs2.toList, (ODir.Generate c L2).2 = none) →
        childrenGenerate cs2 L2 =
          ((cs2.toList.map (fun c => (ODir.Generate c L2).1)).flatten, none)) := by
  have hrow := visitRow_stop_at path hi hpass hfound hnofail
  refine ⟨hrow, ?_, childrenGenerate_join⟩
  intro j hj hij q hmem
  have hjm : j < (L.map Prod.fst).length := by simpa using hj
  have hnot : (L.get ⟨j, hj⟩).1 ∉ (L.map Prod.fst).take (i+1) := by
    have h0 := getElem_not_mem_take hnd hjm (Nat.succ_le_of_lt hij)
    simpa using h0
  have htr : (ODir.Generate (.present (.mk path ig cs)) L).1 =
      (L.take (i+1)).map (fun g => (g.1, path)) ++
        (childrenGenerate cs ((L.take (i+1)).filter (fun g => !isSkip (g.2.visit path).2))).1 := by
    cases L with
    | nil => simp at hj
    | cons g rest =>
      rw [ODir.Generate, hrow]
  rw [htr] at hmem
  rcases List.mem_append.1 hmem with hmem | hmem
  · rcases List.mem_map.1 hmem with ⟨x, hx, hxe⟩
    have hx1 : x.1 = (L.get ⟨j, hj⟩).1 := (Prod.mk.inj hxe).1
    have hxm : x.1 ∈ (L.take (i+1)).map Prod.fst := List.mem_map_of_mem Prod.fst hx
    rw [List.map_take] at hxm
    rw [hx1] at hxm
    exact hnot hxm
  · have htag := childrenGenerate_trace_tags cs _ _ hmem
    have hsub : ((L.take (i+1)).filter (fun g => !isSkip (g.2.visit path).2)).Sublist
        (L.take (i+1)) := List.filter_sublist _
    have hmem2 : (L.get ⟨j, hj⟩).1 ∈ (L.take (i+1)).map Prod.fst :=
      (hsub.map Prod.fst).subset htag
    rw [List.map_take] at hmem2
    exact hnot hmem2
/-- The visit loop always visits the head generator first. -/
theorem visitRow_head (path : String) (g : IGen) (rest : List IGen) :
    ∃ t, (visitRow path (g :: rest)).1 = (g.1, path) :: t := by
  cases he : (g.2.visit path).2 with
  | none =>
    cases hf : (g.2.visit path).1 with
    | true => exact ⟨[], by rw [visitRow_found_none hf he]⟩
    | false =>
      exact ⟨(visitRow path rest).1, by
        simp only [visitRow, he, hf, Bool.false_eq_true, if_false]⟩
  | some v =>
    cases v with
    | skipDir =>
      cases hf : (g.2.visit path).1 with
      | true => exact ⟨[], by rw [visitRow_found_skip hf he]⟩
      | false =>
        exact ⟨(visitRow path rest).1, by
          simp only [visitRow, he, hf, Bool.false_eq_true, if_false]⟩
    | fail e => exact ⟨[], by rw [visitRow_fail he]⟩

/-- A loop over generators none of which genuinely fails completes with
some child list (skip sentinels and found claims never abort it). -/
theorem visitRow_ok_of_nofail (path : String) :
    ∀ M : List IGen, (∀ g ∈ M, isFail (g.2.visit path).2 = false) →
    ∃ l, (visitRow path M).2 = .ok l
  | [], _ => ⟨[], rfl⟩
  | g :: rest, h => by
    have hrest : ∀ x ∈ rest, isFail (x.2.visit path).2 = false :=
      fun x hx => h x (List.mem_cons_of_mem g hx)
    cases he : (g.2.visit path).2 with
    | none =>
      cases hf : (g.2.visit path).1 with
      | true => exact ⟨[g], by rw [visitRow_found_none hf he]⟩
      | false =>
        obtain ⟨l, hl⟩ := visitRow_ok_of_nofail path rest hrest
        refine ⟨g :: l, ?_⟩
        simp only [visitRow, he, hf, Bool.false_eq_true, if_false]
        simp [hl, Except.map]
    | some v =>
      cases v with
      | skipDir =>
        cases hf : (g.2.visit path).1 with
        | true => exact ⟨[], by rw [visitRow_found_skip hf he]⟩
        | false =>
          obtain ⟨l, hl⟩ := visitRow_ok_of_nofail path rest hrest
          refine ⟨l, ?_⟩
          simp only [visitRow, he, hf, Bool.false_eq_true, if_false]
          simp [hl]
      | fail e =>
        have := h g (List.mem_cons_self g rest)
        rw [he] at this
        simp [isFail] at this

/-- Claim C5: a generator returning the skip-subtree sentinel at `D` was
already invoked at `D` itself; it is omitted from the child list computed
at `D` whenever the loop completes, hence never invoked at any descendant
of `D`; the sentinel is never treated as a failure — it does not abort the
loop (if nothing after it genuinely fails the loop returns a child list)
and the walk events never touch the generator state `StartWalk` wrote (the
recorded error stays as it was); and sibling subtrees are each walked
independently with the list computed at their parent, which still contains
the generator. -/
theorem claim5_skip_subtree (path : String) (cs : DirList)
    (L : List IGen) (i : Nat) (hi : i < L.length)
    (hnd : (L.map Prod.fst).Nodup)
    (hpass : ∀ g ∈ L.take i, passes path g.2 = true)
    (hskip : ((L.get ⟨i, hi⟩).2.visit path).2 = some .skipDir) :
    ((L.get ⟨i, hi⟩).1, path) ∈ (visitRow path L).1
    ∧ (∀ Lc : List IGen, (visitRow path L).2 = .ok Lc →
        ((L.get ⟨i, hi⟩).1 ∉ Lc.map Prod.fst
         ∧ ∀ q : String, ((L.get ⟨i, hi⟩).1, q) ∉ (childrenGenerate cs Lc).1))
    ∧ ((∀ g ∈ L.drop (i+1), isFail (g.2.visit path).2 = false) →
        ∃ Lc, (visitRow path L).2 = .ok Lc)
    ∧ (∀ (runPath : String) (t : Nat) (s : GenState),
        applyEvents runPath t s
          ((visitRow path L).1.map (fun v => Event.visitDir v.1 v.2)) = s)
    ∧ (∀ (cs2 : DirList) (L2 : List IGen),
        (∀ c ∈ cs2.toList, (ODir.Generate c L2).2 = none) →
        childrenGenerate cs2 L2 =
          ((cs2.toList.map (fun c => (ODir.Generate c L2).1)).flatten, none)) := by
  have hsplit : L = L.take i ++ (L.get ⟨i, hi⟩ :: L.drop (i+1)) := by
    conv_lhs => rw [← List.take_append_drop i L]
    rw [List.drop_eq_getElem_cons hi, List.get_eq_getElem]
  have hmain : visitRow path L =
      ((L.take i).map (fun g => (g.1, path)) ++
        (visitRow path (L.get ⟨i, hi⟩ :: L.drop (i+1))).1,
       match (visitRow path (L.get ⟨i, hi⟩ :: L.drop (i+1))).2 with
       | .error e => .error e
       | .ok l => .ok ((L.take i).filter (fun g => !isSkip (g.2.visit path).2) ++ l)) := by
    conv_lhs => rw [hsplit]
    rw [visitRow_append_passes hpass]
  refine ⟨?_, ?_, ?_, ?_, childrenGenerate_join⟩
  · obtain ⟨t, ht⟩ := visitRow_head path (L.get ⟨i, hi⟩) (L.drop (i+1))
    rw [hmain]
    simp only [List.mem_append, ht]
    right
    exact List.mem_cons_self _ _
  · intro Lc hok
    have hnotmem : (L.get ⟨i, hi⟩).1 ∉ Lc.map Prod.fst := by
      intro hmem
      rcases List.mem_map.1 hmem with ⟨x, hx, hxe⟩
      have hxL : x ∈ L := (visitRow_ok_sublist hok).subset hx
      have hgi : L.get ⟨i, hi⟩ ∈ L := List.get_mem L i hi
      have hxg : x = L.get ⟨i, hi⟩ := tags_inj hnd x hxL (L.get ⟨i, hi⟩) hgi hxe
      have hns := visitRow_ok_no_skip hok x hx
      rw [hxg, hskip] at hns
      simp [isSkip] at hns
    refine ⟨hnotmem, fun q hmem => ?_⟩
    have htag := childrenGenerate_trace_tags cs Lc _ hmem
    exact hnotmem htag
  · intro hnofail
    have hhead : ∃ l, (visitRow path (L.get ⟨i, hi⟩ :: L.drop (i+1))).2 = .ok l := by
      cases hf : ((L.get ⟨i, hi⟩).2.visit path).1 with
      | true => exact ⟨[], by rw [visitRow_found_skip hf hskip]⟩
      | false =>
        obtain ⟨l, hl⟩ := visitRow_ok_of_nofail path (L.drop (i+1)) hnofail
        refine ⟨l, ?_⟩
        simp only [visitRow, hskip, hf, Bool.false_eq_true, if_false]
        simp [hl]
    obtain ⟨l, hl⟩ := hhead
    refine ⟨(L.take i).filter (fun g => !isSkip (g.2.visit path).2) ++ l, ?_⟩
    have h2 : (visitRow path L).2 =
        match (visitRow path (L.get ⟨i, hi⟩ :: L.drop (i+1))).2 with
        | .error e => .error e
        | .ok l => .ok ((L.take i).filter (fun g => !isSkip (g.2.visit path).2) ++ l) := by
      rw [hmain]
    rw [h2, hl]
  · intro runPath t s
    apply applyEvents_of_visits
    intro ev hev
    rcases List.mem_map.1 hev with ⟨v, _, rfl⟩
    exact ⟨v.1, v.2, rfl⟩

/-- Claim C6: a genuine (non-sentinel) `VisitDir` error at position `i`
aborts the walk at once: the loop stops at `i` with the error, the node's
walk returns the same trace and error without entering any child, an
erring child aborts its parent's child loop with no later sibling walked,
and the top-level `Generate()` returns the error wrapped while still
producing exactly one `StopWalk` event per configured generator. -/
theorem claim6_fatal_visit_error (path : String) (ig : Option Ruleset) (cs : DirList)
    (L : List IGen) (i : Nat) (hi : i < L.length) (e : Err)
    (hpass : ∀ g ∈ L.take i, passes path g.2 = true)
    (hfail : ((L.get ⟨i, hi⟩).2.visit path).2 = some (.fail e)) :
    visitRow path L = ((L.take (i+1)).map (fun g => (g.1, path)), .error e)
    ∧ ODir.Generate (.present (.mk path ig cs)) L =
        ((L.take (i+1)).map (fun g => (g.1, path)), some e)
    ∧ (∀ (c : ODir) (rest : DirList) (L2 : List IGen) (e2 : Err),
        (ODir.Generate c L2).2 = some e2 →
        childrenGenerate (.cons c rest) L2 = ((ODir.Generate c L2).1, some (withStack e2)))
    ∧ (∀ (gc : GeneratorCollection) (fs : FSNode) (dir : ODir) (e2 : Err),
        NewDirectory gc.Path none fs = .ok dir →
        (ODir.Generate dir gc.Generators.enum).2 = some e2 →
        (gc.Generate (.ok true) fs).2 = some (withStack e2)
        ∧ ∀ t, t < gc.Generators.length →
            (gc.Generate (.ok true) fs).1.count (Event.stopWalk t) = 1) := by
  have hsplit : L = L.take i ++ (L.get ⟨i, hi⟩ :: L.drop (i+1)) := by
    conv_lhs => rw [← List.take_append_drop i L]
    rw [List.drop_eq_getElem_cons hi, List.get_eq_getElem]
  have htake : L.take (i+1) = L.take i ++ [L.get ⟨i, hi⟩] := by
    rw [List.take_succ, List.getElem?_eq_getElem hi, List.get_eq_getElem]
    rfl
  have hrow : visitRow path L = ((L.take (i+1)).map (fun g => (g.1, path)), .error e) := by
    conv_lhs => rw [hsplit]
    rw [visitRow_append_passes hpass, visitRow_fail hfail, htake, List.map_append]
    rfl
  refine ⟨hrow, ?_, ?_, ?_⟩
  · cases L with
    | nil => simp at hi
    | cons g rest => rw [ODir.Generate, hrow]
  · intro c rest L2 e2 h2
    rw [childrenGenerate]
    rcases hg : ODir.Generate c L2 with ⟨tr, res⟩
    rw [hg] at h2
    simp at h2
    subst h2
    rfl
  · intro gc fs dir e2 hbuild hwalk
    have hgen : gc.Generate (.ok true) fs =
        (gc.Generators.enum.map (fun ig => Event.startWalk ig.1) ++
          (ODir.Generate dir gc.Generators.enum).1.map (fun v => Event.visitDir v.1 v.2) ++
          gc.Generators.enum.map (fun ig => Event.stopWalk ig.1),
         ((ODir.Generate dir gc.Generators.enum).2).map withStack) := by
      rw [GeneratorCollection.Generate, hbuild]
    constructor
    · rw [hgen]
      simp [hwalk]
    · intro t ht
      rw [hgen]
      simp only [List.count_append]
      have hstarts : (gc.Generators.enum.map
          (fun ig => Event.startWalk ig.1)).count (Event.stopWalk t) = 0 := by
        rw [List.count_eq_zero]
        intro hmem
        rcases List.mem_map.1 hmem with ⟨x, _, hxe⟩
        exact Event.noConfusion hxe
      have hvisits : ((ODir.Generate dir gc.Generators.enum).1.map
          (fun v => Event.visitDir v.1 v.2)).count (Event.stopWalk t) = 0 := by
        rw [List.count_eq_zero]
        intro hmem
        rcases List.mem_map.1 hmem with ⟨x, _, hxe⟩
        exact Event.noConfusion hxe
      have hstops : (gc.Generators.enum.map
          (fun ig => Event.stopWalk ig.1)).count (Event.stopWalk t) = 1 := by
        have hmm : gc.Generators.enum.map (fun ig => Event.stopWalk ig.1) =
            (List.range gc.Generators.length).map Event.stopWalk := by
          rw [← List.enum_map_fst gc.Generators, List.map_map]
          rfl
        rw [hmm]
        rw [List.count_map_of_injective _ Event.stopWalk
          (fun a b hab => by injection hab) t]
        exact List.count_eq_one_of_mem (List.nodup_range _)
          (List.mem_range.2 ht)
      rw [hstarts, hvisits, hstops]

/-- Claim C1 (amended): every fatal error aborts the run at once and is
returned wrapped; `StopWalk` is invoked on every configured generator
exactly once — after all visit events — for fatal errors arising during
the walk (genuine `VisitDir` failures), while the pre-walk fatal errors
(root path not an existing directory, directory-listing failure, invalid
ignore-file syntax) are returned before `StartWalk`, so no `StopWalk`
happens on those runs. -/
theorem claim1_amended (gc : GeneratorCollection) (fs : FSNode) :
    (∀ e : Err, gc.Generate (.statFailure e) fs = ([], some (withStack e)))
    ∧ gc.Generate (.ok false) fs = ([], some (gc.Path ++ " is not a directory"))
    ∧ (∀ e : Err, NewDirectory gc.Path none fs = .error e →
        gc.Generate (.ok true) fs = ([], some (withStack e)))
    ∧ (∀ (dir : ODir) (e : Err),
        NewDirectory gc.Path none fs = .ok dir →
        (ODir.Generate dir gc.Generators.enum).2 = some e →
        (gc.Generate (.ok true) fs).2 = some (withStack e)
        ∧ (∀ t, t < gc.Generators.length →
            (gc.Generate (.ok true) fs).1.count (Event.stopWalk t) = 1)
        ∧ ∃ pre : List Event, (gc.Generate (.ok true) fs).1 =
            pre ++ gc.Generators.enum.map (fun ig => Event.stopWalk ig.1)) := by
  refine ⟨fun e => rfl, rfl, fun e he => by simp [GeneratorCollection.Generate, he],
    fun dir e hbuild hwalk => ?_⟩
  have hgen : gc.Generate (.ok true) fs =
      (gc.Generators.enum.map (fun ig => Event.startWalk ig.1) ++
        (ODir.Generate dir gc.Generators.enum).1.map (fun v => Event.visitDir v.1 v.2) ++
        gc.Generators.enum.map (fun ig => Event.stopWalk ig.1),
       ((ODir.Generate dir gc.Generators.enum).2).map withStack) := by
    rw [GeneratorCollection.Generate, hbuild]
  refine ⟨by rw [hgen]; simp [hwalk], fun t ht => ?_, ?_⟩
  · rw [hgen]
    simp only [List.count_append]
    have hstarts : (gc.Generators.enum.map
        (fun ig => Event.startWalk ig.1)).count (Event.stopWalk t) = 0 := by
      rw [List.count_eq_zero]
      intro hmem
      rcases List.mem_map.1 hmem with ⟨x, _, hxe⟩
      exact Event.noConfusion hxe
    have hvisits : ((ODir.Generate dir gc.Generators.enum).1.map
        (fun v => Event.visitDir v.1 v.2)).count (Event.stopWalk t) = 0 := by
      rw [List.count_eq_zero]
      intro hmem
      rcases List.mem_map.1 hmem with ⟨x, _, hxe⟩
      exact Event.noConfusion hxe
    have hstops : (gc.Generators.enum.map
        (fun ig => Event.stopWalk ig.1)).count (Event.stopWalk t) = 1 := by
      have hmm : gc.Generators.enum.map (fun ig => Event.stopWalk ig.1) =
          (List.range gc.Generators.length).map Event.stopWalk := by
        rw [← List.enum_map_fst gc.Generators, List.map_map]
        rfl
      rw [hmm]
      rw [List.count_map_of_injective _ Event.stopWalk
        (fun a b hab => by injection hab) t]
      exact List.count_eq_one_of_mem (List.nodup_range _) (List.mem_range.2 ht)
    rw [hstarts, hvisits, hstops]
  · refine ⟨gc.Generators.enum.map (fun ig => Event.startWalk ig.1) ++
      (ODir.Generate dir gc.Generators.enum).1.map (fun v => Event.visitDir v.1 v.2), ?_⟩
    rw [hgen]

/-- A generator whose `VisitDir` genuinely fails everywhere. -/
def genFailRoot : Gen := ⟨"failing", fun _ => (false, some (.fail "boom")), none, none, none, none⟩

/-- An empty, healthy root directory. -/
def fsEmptyRoot : FSNode := .mk .absent (.ok .nil)

/-- Counterexample to claim C1 as stated: on a run whose root path is not
a directory the error is returned, yet `StopWalk` is invoked zero times,
not once, on the single configured generator. -/
theorem claim1_counterexample :
    (GeneratorCollection.Generate ⟨[genQuiet], "p", []⟩ (.ok false) fsEmptyRoot).2 =
      some ("p is not a directory")
    ∧ (GeneratorCollection.Generate ⟨[genQuiet], "p", []⟩ (.ok false) fsEmptyRoot).1.count
        (Event.stopWalk 0) = 0 :=
  ⟨rfl, rfl⟩

/-- Witness for `claim1_amended`: a generator failing at the root aborts
the walk, the error is returned, and its `StopWalk` count is one. -/
theorem claim1_witness :
    (GeneratorCollection.Generate ⟨[genFailRoot], "root", []⟩ (.ok true) fsEmptyRoot).2 =
      some "boom"
    ∧ (GeneratorCollection.Generate ⟨[genFailRoot], "root", []⟩ (.ok true) fsEmptyRoot).1.count
        (Event.stopWalk 0) = 1 := by
  have h := (claim1_amended ⟨[genFailRoot], "root", []⟩ fsEmptyRoot).2.2.2
    (.present (.mk "root" none .nil)) "boom" (by rfl) (by decide)
  exact ⟨h.1, h.2.1 0 (by decide)⟩

/-- A generator claiming every directory (`found = true`, no error). -/
def genFoundAll : Gen := ⟨"claimant", fun _ => (true, none), none, none, none, none⟩

/-- A generator returning the skip-subtree sentinel everywhere. -/
def genSkipAll : Gen := ⟨"skipper", fun _ => (false, some .skipDir), none, none, none, none⟩

/-- Witness for `claim3_found_truncates`: with the first of two
generators claiming the directory, only it is visited there. -/
theorem claim3_witness :
    (List.map Prod.fst [((0:Nat), genFoundAll), (1, genQuiet)]).Nodup
    ∧ (visitRow "r" [(0, genFoundAll), (1, genQuiet)]).1 = [(0, "r")] := by
  refine ⟨by decide, ?_⟩
  have h := (claim3_found_truncates "r" none .nil [(0, genFoundAll), (1, genQuiet)] 0
    (by decide) (by decide) (by simp) (by decide) (by decide)).1
  rw [h]
  rfl

/-- Witness for `claim5_skip_subtree`: a skipping generator is visited at
the directory and the loop still completes with a child list. -/
theorem claim5_witness :
    ((0:Nat), "r") ∈ (visitRow "r" [(0, genSkipAll), (1, genQuiet)]).1
    ∧ ∃ Lc : List IGen, (visitRow "r" [(0, genSkipAll), (1, genQuiet)]).2 = .ok Lc := by
  have h := claim5_skip_subtree "r" .nil [(0, genSkipAll), (1, genQuiet)] 0
    (by decide) (by decide) (by simp) (by decide)
  exact ⟨h.1, h.2.2.1 (by decide)⟩

/-- Witness for `claim6_fatal_visit_error`: a failing generator stops the
loop at once with its error. -/
theorem claim6_witness :
    visitRow "r" [((0:Nat), genFailRoot)] = ([(0, "r")], .error "boom") := by
  have h := (claim6_fatal_visit_error "r" none .nil [(0, genFailRoot)] 0
    (by decide) "boom" (by simp) (by decide)).1
  rw [h]
  rfl
